import Mathlib

/-!
Verification of the git virtual-resource locator codec and path-resolution
helpers (src/extensions/git/src/uri.ts).

The embedding models:
  * JSON values together with the JSON.parse / JSON.stringify primitives used
    by the codec (strings, escaping, objects, arrays, booleans, null and
    integer numbers; fractional/exponent number literals and surrogate-pair
    escapes are outside the model, no claim depends on them),
  * the vscode resource-identifier type (scheme/authority/path/query/fragment
    components) — the vscode Uri class itself is repository code that is not
    under src/, so it is modelled from the spec,
  * the filesystem realpath call as an oracle String → Option String, with a
    trace of the paths looked up (so that at-most-once lookup is provable).
-/

/-! ## JSON values -/

/-- A JSON value.  Objects keep their fields as an ordered association list,
mirroring JavaScript property-insertion order.  Numbers are modelled as
integers; no code path of the module under verification produces or consumes
fractional numbers. -/
inductive Json where
  | null : Json
  | bool (b : Bool) : Json
  | num (n : Int) : Json
  | str (s : String) : Json
  | arr (elems : List Json) : Json
  | obj (fields : List (String × Json)) : Json
deriving Repr

/-! ## JSON.stringify -/

/-- Lowercase hexadecimal digit, as produced by JavaScript string escaping. -/
def hexDig (n : Nat) : Char :=
  if n < 10 then Char.ofNat (48 + n) else Char.ofNat (87 + n)

/-- Escaping of one character in a JSON string literal, exactly as
JSON.stringify performs it: the quote and backslash get two-character
escapes, the five named control characters get their short escapes, all
other control characters below 0x20 get a lowercase \u00xy escape, and
everything else is emitted literally. -/
def escChar (c : Char) : List Char :=
  if c = '"' then ['\\', '"']
  else if c = '\\' then ['\\', '\\']
  else if c = '\x08' then ['\\', 'b']
  else if c = '\t' then ['\\', 't']
  else if c = '\n' then ['\\', 'n']
  else if c = '\x0c' then ['\\', 'f']
  else if c = '\r' then ['\\', 'r']
  else if c.toNat < 32 then
    ['\\', 'u', '0', '0', hexDig (c.toNat / 16), hexDig (c.toNat % 16)]
  else [c]

/-- The escaped body of a JSON string literal. -/
def escInner (s : String) : List Char :=
  (s.data.map escChar).flatten

/-- A complete JSON string literal, quotes included. -/
def escString (s : String) : List Char :=
  '"' :: escInner s ++ ['"']

mutual

/-- Serialization of a JSON value, as the character list JSON.stringify
produces (no whitespace is ever emitted). -/
def stringifyChars : Json → List Char
  | .null => "null".data
  | .bool b => if b then "true".data else "false".data
  | .num n => (toString n).data
  | .str s => escString s
  | .arr elems => '[' :: stringifyArr elems ++ [']']
  | .obj fields => '{' :: stringifyObj fields ++ ['}']

/-- Comma-separated serialization of array elements. -/
def stringifyArr : List Json → List Char
  | [] => []
  | [j] => stringifyChars j
  | j :: rest => stringifyChars j ++ ',' :: stringifyArr rest

/-- Comma-separated serialization of object members. -/
def stringifyObj : List (String × Json) → List Char
  | [] => []
  | [(k, v)] => escString k ++ ':' :: stringifyChars v
  | (k, v) :: rest => escString k ++ ':' :: stringifyChars v ++ ',' :: stringifyObj rest

end

/-- The JSON.stringify primitive. -/
def Json.stringify (j : Json) : String :=
  String.mk (stringifyChars j)

example : Json.stringify (.obj [("path", .str "/repo/a.txt"), ("ref", .str "abc123")]) =
    "\x7b\"path\":\"/repo/a.txt\",\"ref\":\"abc123\"\x7d" := by decide

example : Json.stringify (.str "a\n\"b\\c\x01") = "\"a\\n\\\"b\\\\c\\u0001\"" := by decide

/-! ## JSON.parse -/

/-- Value of one hexadecimal digit character (either case accepted, as in
JSON \u escapes). -/
def hexVal (c : Char) : Option Nat :=
  if '0' ≤ c ∧ c ≤ '9' then some (c.toNat - 48)
  else if 'a' ≤ c ∧ c ≤ 'f' then some (c.toNat - 87)
  else if 'A' ≤ c ∧ c ≤ 'F' then some (c.toNat - 55)
  else none

/-- The four JSON whitespace characters recognised by JSON.parse. -/
def isWsChar (c : Char) : Bool :=
  c = ' ' || c = '\t' || c = '\n' || c = '\r'

/-- Skip leading JSON whitespace. -/
def skipWs : List Char → List Char
  | [] => []
  | c :: rest => if isWsChar c then skipWs rest else c :: rest

/-- Prepend a character to the content of an in-progress string-literal
parse. -/
def consFst (c : Char) (o : Option (List Char × List Char)) :
    Option (List Char × List Char) :=
  o.map fun p => (c :: p.1, p.2)

/-- Decoded character of a short escape sequence \e. -/
def escShort (e : Char) : Option Char :=
  if e = '"' then some '"'
  else if e = '\\' then some '\\'
  else if e = '/' then some '/'
  else if e = 'b' then some '\x08'
  else if e = 'f' then some '\x0c'
  else if e = 'n' then some '\n'
  else if e = 'r' then some '\r'
  else if e = 't' then some '\t'
  else none

/-- Decoded character of a \u escape from its four hex digits.  A code unit
in the surrogate range is rejected (our characters are Unicode scalar
values; no claim involves surrogate escapes). -/
def hexChar4 (d1 d2 d3 d4 : Char) : Option Char :=
  match hexVal d1, hexVal d2, hexVal d3, hexVal d4 with
  | some a, some b, some c, some d =>
    let n := ((a * 16 + b) * 16 + c) * 16 + d
    if n < 0xd800 ∨ 0xdfff < n then some (Char.ofNat n) else none
  | _, _, _, _ => none

/-- Four hex digits of a \u escape, consumed from the input. -/
def parseHexEsc : List Char → Option (Char × List Char)
  | d1 :: d2 :: d3 :: d4 :: rest =>
    match hexChar4 d1 d2 d3 d4 with
    | some ch => some (ch, rest)
    | none => none
  | _ => none

/-- Decode one escape sequence (the backslash has already been consumed). -/
def parseEsc : List Char → Option (Char × List Char)
  | [] => none
  | e :: rest =>
    if e = 'u' then parseHexEsc rest
    else (escShort e).map fun ch => (ch, rest)

/-- Parse the body of a JSON string literal (the opening quote has already
been consumed), returning the decoded characters and the input after the
closing quote.  Escape sequences follow the JSON grammar.  Fuel-indexed so
that the recursion is structural; every step consumes at least one input
character, so fuel (length + 1) always suffices. -/
def parseStringBody : Nat → List Char → Option (List Char × List Char)
  | 0, _ => none
  | _ + 1, [] => none
  | f + 1, c :: rest =>
    if c = '"' then some ([], rest)
    else if c = '\\' then
      match parseEsc rest with
      | some er => consFst er.1 (parseStringBody f er.2)
      | none => none
    else if c.toNat < 32 then none
    else consFst c (parseStringBody f rest)

/-- Digit value of a decimal digit character. -/
def digVal (c : Char) : Option Nat :=
  if '0' ≤ c ∧ c ≤ '9' then some (c.toNat - 48) else none

/-- Consume a run of decimal digits, accumulating their value. -/
def parseDigits : List Char → Nat → Nat × List Char
  | [], acc => (acc, [])
  | c :: rest, acc =>
    match digVal c with
    | some d => parseDigits rest (acc * 10 + d)
    | none => (acc, c :: rest)

/-- Parse the integer part of a JSON number (leading zeros are rejected, as
in the JSON grammar). -/
def parseNumCore : List Char → Option (Nat × List Char)
  | [] => none
  | c :: rest =>
    if c = '0' then
      match rest with
      | d :: _ => if (digVal d).isSome then none else some (0, rest)
      | [] => some (0, [])
    else
      match digVal c with
      | some d => some (parseDigits rest d)
      | none => none

/-- Parse a JSON number literal (integer part only; fractional and exponent
parts are outside the model). -/
def parseNumber (l : List Char) : Option (Json × List Char) :=
  match l with
  | '-' :: rest => (parseNumCore rest).map fun p => (.num (-(p.1 : Int)), p.2)
  | _ => (parseNumCore l).map fun p => (.num (p.1 : Int), p.2)

/-- Assign one parsed member into an object under construction, with
JavaScript property semantics: an existing key keeps its position and gets
the new value, a fresh key is appended. -/
def insertField (fields : List (String × Json)) (k : String) (v : Json) :
    List (String × Json) :=
  if fields.any fun kv => kv.1 = k then
    fields.map fun kv => if kv.1 = k then (k, v) else kv
  else fields ++ [(k, v)]

/-- Build the final object field list from parsed members, in assignment
order (duplicate keys: last value wins, first position kept). -/
def dedupFields (members : List (String × Json)) : List (String × Json) :=
  members.foldl (fun acc kv => insertField acc kv.1 kv.2) []

mutual

/-- Parse one JSON value.  Fuel-indexed so that the recursion is structural;
Json.parse supplies enough fuel for any input. -/
def parseValue : Nat → List Char → Option (Json × List Char)
  | 0, _ => none
  | f + 1, l =>
    match skipWs l with
    | [] => none
    | c :: rest =>
      if c = '"' then
        (parseStringBody f rest).map fun p => (.str (String.mk p.1), p.2)
      else if c = '{' then
        match skipWs rest with
        | [] => none
        | c2 :: r2 =>
          if c2 = '}' then some (.obj [], r2)
          else
            (parseMembers f (c2 :: r2)).map fun p => (.obj (dedupFields p.1), p.2)
      else if c = '[' then
        match skipWs rest with
        | [] => none
        | c2 :: r2 =>
          if c2 = ']' then some (.arr [], r2)
          else (parseElems f (c2 :: r2)).map fun p => (.arr p.1, p.2)
      else if c = 'n' then
        match rest with
        | 'u' :: 'l' :: 'l' :: r => some (.null, r)
        | _ => none
      else if c = 't' then
        match rest with
        | 'r' :: 'u' :: 'e' :: r => some (.bool true, r)
        | _ => none
      else if c = 'f' then
        match rest with
        | 'a' :: 'l' :: 's' :: 'e' :: r => some (.bool false, r)
        | _ => none
      else parseNumber (c :: rest)

/-- Parse the members of a JSON object, consuming the closing brace. -/
def parseMembers : Nat → List Char → Option (List (String × Json) × List Char)
  | 0, _ => none
  | f + 1, l =>
    match skipWs l with
    | [] => none
    | c :: rest =>
      if c = '"' then
        match parseStringBody f rest with
        | none => none
        | some (k, r1) =>
          match skipWs r1 with
          | [] => none
          | c2 :: r2 =>
            if c2 = ':' then
              match parseValue f r2 with
              | none => none
              | some (v, r3) =>
                match skipWs r3 with
                | [] => none
                | c3 :: r4 =>
                  if c3 = ',' then
                    (parseMembers f r4).map fun p => ((String.mk k, v) :: p.1, p.2)
                  else if c3 = '}' then some ([(String.mk k, v)], r4)
                  else none
            else none
      else none

/-- Parse the elements of a JSON array, consuming the closing bracket. -/
def parseElems : Nat → List Char → Option (List Json × List Char)
  | 0, _ => none
  | f + 1, l =>
    match parseValue f l with
    | none => none
    | some (j, r1) =>
      match skipWs r1 with
      | [] => none
      | c2 :: r2 =>
        if c2 = ',' then (parseElems f r2).map fun p => (j :: p.1, p.2)
        else if c2 = ']' then some ([j], r2)
        else none

end

/-- The JSON.parse primitive: parse a complete JSON document, requiring that
nothing but whitespace follows the value. -/
def Json.parse (s : String) : Except String Json :=
  match parseValue (s.data.length + 1) s.data with
  | some (j, rest) =>
    match skipWs rest with
    | [] => .ok j
    | _ => .error "Unexpected non-whitespace character after JSON data"
  | none => .error "Unexpected token in JSON"

example : Json.parse "\x7b\"path\":\"/repo/a.txt\",\"ref\":\"abc123\"\x7d" =
    .ok (.obj [("path", .str "/repo/a.txt"), ("ref", .str "abc123")]) := by rfl

example : Json.parse "null" = .ok .null := by rfl

example : Json.parse " [1, true, \"a\\u0041\"] " =
    .ok (.arr [.num 1, .bool true, .str "aA"]) := by rfl

example : Json.parse "\x7b" = .error "Unexpected token in JSON" := by rfl

example : Json.parse "\x7b\"a\":1,\"a\":2,\"b\":0\x7d" =
    .ok (.obj [("a", .num 2), ("b", .num 0)]) := by rfl

/-! ## Resource identifiers and the filesystem oracle -/

/-- Modelled from the spec: the generic resource-identifier type consumed by
the module (the vscode Uri class is repository code that is not under src/).
Per the spec it is a scheme/authority/path/query/fragment record with an
immutable copy-with-new-fields constructor, which the embedding renders as
Lean structure update. -/
structure Uri where
  scheme : String
  authority : String
  path : String
  query : String
  fragment : String
deriving Repr, DecidableEq

/-- Modelled from the spec: the identifier's real-path accessor (fsPath).
The spec describes the encoder as storing "the source identifier's real
path" and its worked example (section 8) shows that path equal to the
identifier's path component, so the accessor is the path component. -/
def Uri.fsPath (u : Uri) : String :=
  u.path

/-- The filesystem oracle: what fs.realpathSync would answer for each path,
none meaning the call fails (missing path, permission error, ...). -/
structure FileSystem where
  realpath : String → Option String

/-- One invocation of fs.realpathSync: the outcome paired with the trace of
paths looked up by this call (always exactly one). -/
def FileSystem.realpathSync (fs : FileSystem) (p : String) :
    Option String × List String :=
  (fs.realpath p, [p])

/-! ## The locator codec (src/extensions/git/src/uri.ts) -/

/-- The regular expression test /^git$/.test(scheme): anchored at both ends,
it matches exactly the string "git". -/
def regexExactGit (s : String) : Bool :=
  s == "git"

def isGitUri (uri : Uri) : Bool :=
  regexExactGit uri.scheme

/-- fromGitUri: JSON.parse applied to the identifier's query, errors
propagated. -/
def fromGitUri (uri : Uri) : Except String Json :=
  Json.parse uri.query

structure GitUriOptions where
  replaceFileExtension : Option Bool := none
  submoduleOf : Option String := none

/-- JavaScript truthiness of an optional boolean option. -/
def truthyBool : Option Bool → Bool
  | none => false
  | some b => b

/-- JavaScript truthiness of an optional string option (the empty string is
falsy). -/
def truthyStr : Option String → Bool
  | none => false
  | some s => s != ""

/-- The GitUriParams record built by toGitUri: path and ref always, then
submoduleOf only when the option is (truthily) present, in that insertion
order. -/
def gitUriParams (uri : Uri) (ref : String) (options : GitUriOptions) :
    List (String × Json) :=
  let base : List (String × Json) := [("path", .str uri.fsPath), ("ref", .str ref)]
  match options.submoduleOf with
  | some s => if s != "" then base ++ [("submoduleOf", .str s)] else base
  | none => base

/-- toGitUri: build the params from the identifier's real path and the ref,
compute the output path component (append ".git" when replaceFileExtension,
else ".diff" when submoduleOf, else unchanged), and return the identifier
with scheme "git", that path, and the JSON-serialized params as query. -/
def toGitUri (uri : Uri) (ref : String) (options : GitUriOptions) : Uri :=
  let params := gitUriParams uri ref options
  let path :=
    if truthyBool options.replaceFileExtension then uri.path ++ ".git"
    else if truthyStr options.submoduleOf then uri.path ++ ".diff"
    else uri.path
  { uri with scheme := "git", path := path, query := Json.stringify (.obj params) }

/-- The three merge identifiers: base, ours, theirs. -/
structure MergeUris where
  base : Uri
  ours : Uri
  theirs : Uri

/-- toMergeUris: the base/ours/theirs locators with refs ":1", ":2", ":3". -/
def toMergeUris (uri : Uri) : MergeUris :=
  { base := toGitUri uri ":1" {}
    ours := toGitUri uri ":2" {}
    theirs := toGitUri uri ":3" {} }

/-! ## Path resolution -/

/-- resolvePath: one realpathSync call; its result on success, the original
path on failure.  The second component is the trace of filesystem lookups
performed (the call never raises: the failure branch is the fallback). -/
def resolvePath (fs : FileSystem) (path : String) : String × List String :=
  match fs.realpathSync path with
  | (some resolved, trace) => (resolved, trace)
  | (none, trace) => (path, trace)

/-- JavaScript property access parsedQuery.path followed by
fs.realpathSync(...) and the spread {...parsedQuery, path: resolved}: the
whole try-block body of fromGitUriAndResolve.  none models a raised
exception anywhere in that body (TypeError on null, realpathSync failure or
non-string argument); on success the parsed object is returned with its
path field overwritten in place. -/
def tryResolveParsed (fs : FileSystem) (j : Json) : Option Json :=
  match j with
  | .obj fields =>
    match fields.lookup "path" with
    | some (.str p) =>
      match fs.realpathSync p with
      | (some resolved, _) =>
        some (.obj (fields.map fun kv => if kv.1 = "path" then (kv.1, .str resolved) else kv))
      | (none, _) => none
    | _ => none
  | _ => none

/-- fromGitUriAndResolve: JSON.parse the query (errors propagated), then try
to replace the path field with its realpath; any failure inside the try
falls back to the parsed value unchanged. -/
def fromGitUriAndResolve (fs : FileSystem) (uri : Uri) : Except String Json :=
  match Json.parse uri.query with
  | .error e => .error e
  | .ok parsedQuery =>
    match tryResolveParsed fs parsedQuery with
    | some resolved => .ok resolved
    | none => .ok parsedQuery

/-- resolveUri: the identifier with its path component resolved. -/
def resolveUri (fs : FileSystem) (uri : Uri) : Uri :=
  { uri with path := (resolvePath fs uri.path).1 }

/-- JavaScript line terminators, which the regular-expression dot does not
match. -/
def isLineTerm (c : Char) : Bool :=
  c.toNat = 10 || c.toNat = 13 || c.toNat = 0x2028 || c.toNat = 0x2029

/-- The test /.git$/.test(path) as written in the source: the dot is
unescaped, so the pattern matches whenever the last four characters of the
path are any non-line-terminator character followed by "git" (the literal
".git" ending is the special case where that character is a dot). -/
def regexDotGitTest (s : String) : Bool :=
  match s.data.reverse with
  | 't' :: 'i' :: 'g' :: c :: _ => !isLineTerm c
  | _ => false

/-- path.replace(/.git$/, ""): when the pattern matches, the matched four
characters (at the end) are removed; otherwise the path is unchanged. -/
def jsReplaceDotGit (s : String) : String :=
  if regexDotGitTest s then String.mk (s.data.take (s.data.length - 4)) else s

/-- resolveUriWithGitScheme: detect a trailing git suffix with /.git$/,
resolve the path with the matched suffix stripped, re-append ".git" when it
was detected, and, when the query is nonempty, re-derive the query from
fromGitUriAndResolve; if JSON.parse inside that call throws, the catch
returns the original identifier unchanged. -/
def resolveUriWithGitScheme (fs : FileSystem) (uri : Uri) : Uri :=
  let endsInGit := regexDotGitTest uri.path
  let oldPathResolved :=
    (resolvePath fs (if endsInGit then jsReplaceDotGit uri.path else uri.path)).1
  let newPath := if endsInGit then oldPathResolved ++ ".git" else oldPathResolved
  if uri.query ≠ "" then
    match fromGitUriAndResolve fs uri with
    | .ok resolved => { uri with path := newPath, query := Json.stringify resolved }
    | .error _ => uri
  else
    { uri with path := newPath }

/-! ## Batch resolution -/

structure WorkspaceFolder where
  uri : Uri
  name : String
  index : Nat
deriving Repr, DecidableEq

/-- resolveWorkspaceFolders: undefined input yields [], otherwise each
folder is copied with its identifier's path resolved. -/
def resolveWorkspaceFolders (fs : FileSystem)
    (workspaceFolders : Option (List WorkspaceFolder)) : List WorkspaceFolder :=
  match workspaceFolders with
  | none => []
  | some folders =>
    folders.map fun folder =>
      { folder with
        uri := { folder.uri with path := (resolvePath fs folder.uri.path).1 } }

structure TextDocument where
  uri : Uri
  fileName : String
  languageId : String
  version : Nat
deriving Repr, DecidableEq

structure TextEditor where
  document : TextDocument
  viewColumn : Nat
deriving Repr, DecidableEq

/-- resolveWindowVisibleTextEditors: each editor is copied with its
document's identifier resolved via resolveUri. -/
def resolveWindowVisibleTextEditors (fs : FileSystem)
    (editors : List TextEditor) : List TextEditor :=
  editors.map fun editor =>
    { editor with
      document := { editor.document with uri := resolveUri fs editor.document.uri } }

/-! ## Round-trip lemmas for the JSON codec -/

theorem String.mk_data (s : String) : String.mk s.data = s := rfl

theorem skipWs_cons (c : Char) (l : List Char) (h : isWsChar c = false) :
    skipWs (c :: l) = c :: l := by
  simp [skipWs, h]

theorem hexVal_hexDig : ∀ m < 16, hexVal (hexDig m) = some m := by decide


/-- Parsing picks up exactly the character that escaping emitted, at the
cost of one unit of fuel. -/
theorem parseStringBody_escChar (c : Char) (f : Nat) (tail : List Char) :
    parseStringBody (f + 1) (escChar c ++ tail) = consFst c (parseStringBody f tail) := by
  by_cases h1 : c = '"'
  · subst h1
    rw [show escChar '"' ++ tail = '\\' :: '"' :: tail from rfl, parseStringBody]
    simp [parseEsc, escShort]
  by_cases h2 : c = '\\'
  · subst h2
    rw [show escChar '\\' ++ tail = '\\' :: '\\' :: tail from rfl, parseStringBody]
    simp [parseEsc, escShort]
  by_cases h3 : c = '\x08'
  · subst h3
    rw [show escChar '\x08' ++ tail = '\\' :: 'b' :: tail from rfl, parseStringBody]
    simp [parseEsc, escShort]
  by_cases h4 : c = '\t'
  · subst h4
    rw [show escChar '\t' ++ tail = '\\' :: 't' :: tail from rfl, parseStringBody]
    simp [parseEsc, escShort]
  by_cases h5 : c = '\n'
  · subst h5
    rw [show escChar '\n' ++ tail = '\\' :: 'n' :: tail from rfl, parseStringBody]
    simp [parseEsc, escShort]
  by_cases h6 : c = '\x0c'
  · subst h6
    rw [show escChar '\x0c' ++ tail = '\\' :: 'f' :: tail from rfl, parseStringBody]
    simp [parseEsc, escShort]
  by_cases h7 : c = '\r'
  · subst h7
    rw [show escChar '\r' ++ tail = '\\' :: 'r' :: tail from rfl, parseStringBody]
    simp [parseEsc, escShort]
  by_cases h8 : c.toNat < 32
  · have e0 : hexVal '0' = some 0 := rfl
    have e1 : hexVal (hexDig (c.toNat / 16)) = some (c.toNat / 16) :=
      hexVal_hexDig _ (by omega)
    have e2 : hexVal (hexDig (c.toNat % 16)) = some (c.toNat % 16) :=
      hexVal_hexDig _ (by omega)
    have hn : c.toNat / 16 * 16 + c.toNat % 16 = c.toNat := by omega
    have hlt : c.toNat < 55296 ∨ 57343 < c.toNat := Or.inl (by omega)
    have hesc : escChar c =
        ['\\', 'u', '0', '0', hexDig (c.toNat / 16), hexDig (c.toNat % 16)] := by
      simp [escChar, h1, h2, h3, h4, h5, h6, h7, h8]
    rw [hesc]
    simp only [List.cons_append, List.nil_append]
    rw [parseStringBody]
    simp [parseEsc, parseHexEsc, hexChar4, e0, e1, e2, hn, hlt, Char.ofNat_toNat]
  · have hesc : escChar c = [c] := by
      simp [escChar, h1, h2, h3, h4, h5, h6, h7, h8]
    rw [hesc]
    simp only [List.cons_append, List.nil_append]
    rw [parseStringBody]
    simp [h1, h2, h8]

/-- Round trip of a whole escaped character list, with fuel linear in the
decoded length. -/
theorem parseStringBody_escList (cs : List Char) :
    ∀ (f : Nat) (tail : List Char),
      parseStringBody (cs.length + (f + 1)) ((cs.map escChar).flatten ++ '"' :: tail) =
        some (cs, tail) := by
  induction cs with
  | nil =>
    intro f tail
    simp only [List.length_nil, List.map_nil, List.flatten_nil, List.nil_append, Nat.zero_add]
    rw [parseStringBody]
    simp
  | cons c cs ih =>
    intro f tail
    have hfuel : (c :: cs).length + (f + 1) = cs.length + (f + 1) + 1 := by
      simp [List.length_cons]; omega
    rw [hfuel]
    simp only [List.map_cons, List.flatten_cons, List.append_assoc]
    rw [parseStringBody_escChar, ih f tail]
    rfl

/-- Round trip of an escaped string body. -/
theorem parseStringBody_escInner (s : String) (f : Nat) (tail : List Char) :
    parseStringBody (s.length + (f + 1)) (escInner s ++ '"' :: tail) =
      some (s.data, tail) :=
  parseStringBody_escList s.data f tail

/-- Parsing a serialized string literal yields the string value. -/
theorem parseValue_strLit (s : String) (f : Nat) (tail : List Char) :
    parseValue (s.length + (f + 2)) ('"' :: (escInner s ++ '"' :: tail)) =
      some (.str s, tail) := by
  have hfuel : s.length + (f + 2) = s.length + (f + 1) + 1 := by omega
  rw [hfuel, parseValue]
  rw [skipWs_cons _ _ (by decide)]
  simp [parseStringBody_escInner, String.mk_data]

/-- Fuel-flexible form of the string-body round trip. -/
theorem parseStringBody_escInnerF (s : String) (tail : List Char) (F f : Nat)
    (hF : F = s.length + (f + 1)) :
    parseStringBody F (escInner s ++ '"' :: tail) = some (s.data, tail) := by
  subst hF; exact parseStringBody_escInner s f tail

/-- Fuel-flexible form of the string-literal round trip. -/
theorem parseValue_strVal (s : String) (tail : List Char) (F f : Nat)
    (hF : F = s.length + (f + 2)) :
    parseValue F ('"' :: (escInner s ++ '"' :: tail)) = some (.str s, tail) := by
  subst hF; exact parseValue_strLit s f tail

/-- Parsing one serialized string-valued member followed by a comma
continues with the remaining members. -/
theorem parseMembers_consMem (k v : String) (rest : List Char) (F f : Nat)
    (hF : F = k.length + v.length + (f + 3)) :
    parseMembers F
        ('"' :: (escInner k ++ '"' :: ':' :: '"' :: (escInner v ++ '"' :: ',' :: rest))) =
      (parseMembers (k.length + v.length + (f + 2)) rest).map
        fun p => ((k, Json.str v) :: p.1, p.2) := by
  subst hF
  have h1 : k.length + v.length + (f + 3) = k.length + v.length + (f + 2) + 1 := by omega
  rw [h1, parseMembers, skipWs_cons _ _ (by decide)]
  simp only [reduceIte]
  rw [parseStringBody_escInnerF k _ _ (v.length + (f + 1)) (by omega)]
  simp only []
  rw [skipWs_cons _ _ (by decide)]
  simp only [reduceIte]
  rw [parseValue_strVal v _ _ (k.length + f) (by omega)]
  simp only []
  rw [skipWs_cons _ _ (by decide)]
  simp [String.mk_data]

/-- Parsing the final serialized string-valued member consumes the closing
brace. -/
theorem parseMembers_lastMem (k v : String) (rest : List Char) (F f : Nat)
    (hF : F = k.length + v.length + (f + 3)) :
    parseMembers F
        ('"' :: (escInner k ++ '"' :: ':' :: '"' :: (escInner v ++ '"' :: '}' :: rest))) =
      some ([(k, Json.str v)], rest) := by
  subst hF
  have h1 : k.length + v.length + (f + 3) = k.length + v.length + (f + 2) + 1 := by omega
  rw [h1, parseMembers, skipWs_cons _ _ (by decide)]
  simp only [reduceIte]
  rw [parseStringBody_escInnerF k _ _ (v.length + (f + 1)) (by omega)]
  simp only []
  rw [skipWs_cons _ _ (by decide)]
  simp only [reduceIte]
  rw [parseValue_strVal v _ _ (k.length + f) (by omega)]
  simp only []
  rw [skipWs_cons _ _ (by decide)]
  simp [String.mk_data]

/-- Parsing the serialization of a two-field object of strings (the shape
toGitUri emits without submoduleOf) returns exactly that object. -/
theorem parseValue_obj2 (p r : String) (rest : List Char) (F f : Nat)
    (hF : F = p.length + r.length + (f + 12)) :
    parseValue F
        (stringifyChars (.obj [("path", .str p), ("ref", .str r)]) ++ rest) =
      some (.obj [("path", .str p), ("ref", .str r)], rest) := by
  subst hF
  have hshape :
      stringifyChars (.obj [("path", .str p), ("ref", .str r)]) ++ rest =
        '{' :: '"' :: (escInner "path" ++ '"' :: ':' :: '"' ::
          (escInner p ++ '"' :: ',' :: '"' :: (escInner "ref" ++ '"' :: ':' :: '"' ::
            (escInner r ++ '"' :: '}' :: rest)))) := by
    simp [stringifyChars, stringifyObj, escString]
  rw [hshape]
  have h1 : p.length + r.length + (f + 12) = p.length + r.length + (f + 11) + 1 := by omega
  rw [h1, parseValue, skipWs_cons _ _ (by decide)]
  simp only [reduceIte]
  rw [skipWs_cons _ _ (by decide)]
  simp only [reduceIte]
  rw [parseMembers_consMem "path" p _ _ (r.length + (f + 4))
    (by have h4 : ("path" : String).length = 4 := rfl; omega)]
  rw [parseMembers_lastMem "ref" r _ _ (p.length + (f + 4))
    (by have h3 : ("ref" : String).length = 3 := rfl
        have h4 : ("path" : String).length = 4 := rfl
        omega)]
  simp [dedupFields, insertField]

/-- Parsing the serialization of the three-field object of strings (the
shape toGitUri emits with submoduleOf) returns exactly that object. -/
theorem parseValue_obj3 (p r m : String) (rest : List Char) (F f : Nat)
    (hF : F = p.length + r.length + m.length + (f + 17)) :
    parseValue F
        (stringifyChars
          (.obj [("path", .str p), ("ref", .str r), ("submoduleOf", .str m)]) ++ rest) =
      some (.obj [("path", .str p), ("ref", .str r), ("submoduleOf", .str m)], rest) := by
  subst hF
  have hshape :
      stringifyChars
          (.obj [("path", .str p), ("ref", .str r), ("submoduleOf", .str m)]) ++ rest =
        '{' :: '"' :: (escInner "path" ++ '"' :: ':' :: '"' ::
          (escInner p ++ '"' :: ',' :: '"' :: (escInner "ref" ++ '"' :: ':' :: '"' ::
            (escInner r ++ '"' :: ',' :: '"' :: (escInner "submoduleOf" ++ '"' :: ':' :: '"' ::
              (escInner m ++ '"' :: '}' :: rest)))))) := by
    simp [stringifyChars, stringifyObj, escString]
  rw [hshape]
  have h1 : p.length + r.length + m.length + (f + 17) =
      p.length + r.length + m.length + (f + 16) + 1 := by omega
  rw [h1, parseValue, skipWs_cons _ _ (by decide)]
  simp only [reduceIte]
  rw [skipWs_cons _ _ (by decide)]
  simp only [reduceIte]
  rw [parseMembers_consMem "path" p _ _ (r.length + m.length + (f + 9))
    (by have h4 : ("path" : String).length = 4 := rfl; omega)]
  rw [parseMembers_consMem "ref" r _ _ (p.length + m.length + (f + 9))
    (by have h3 : ("ref" : String).length = 3 := rfl
        have h4 : ("path" : String).length = 4 := rfl
        omega)]
  rw [parseMembers_lastMem "submoduleOf" m _ _ (p.length + r.length + f)
    (by have h11 : ("submoduleOf" : String).length = 11 := rfl
        have h3 : ("ref" : String).length = 3 := rfl
        have h4 : ("path" : String).length = 4 := rfl
        omega)]
  simp [dedupFields, insertField]

/-- Escaping a character emits at least one character. -/
theorem escChar_length_pos (c : Char) : 1 ≤ (escChar c).length := by
  simp only [escChar]
  split_ifs <;> simp

/-- Escaping a list of characters emits at least as many characters. -/
theorem escList_length (cs : List Char) : cs.length ≤ ((cs.map escChar).flatten).length := by
  induction cs with
  | nil => simp
  | cons c cs ih =>
    simp only [List.map_cons, List.flatten_cons, List.length_append, List.length_cons]
    have := escChar_length_pos c
    omega

/-- Escaping a string emits at least its length in characters. -/
theorem escInner_length (s : String) : s.length ≤ (escInner s).length :=
  escList_length s.data

/-- The two-field round trip through the whole JSON.parse / JSON.stringify
pipeline: the key fact behind the codec round-trip property. -/
theorem json_roundtrip2 (p r : String) :
    Json.parse (Json.stringify (.obj [("path", .str p), ("ref", .str r)])) =
      .ok (.obj [("path", .str p), ("ref", .str r)]) := by
  unfold Json.parse Json.stringify
  rw [show (String.mk (stringifyChars (.obj [("path", .str p), ("ref", .str r)]))).data
        = stringifyChars (.obj [("path", .str p), ("ref", .str r)]) from rfl]
  have hp := escInner_length p
  have hr := escInner_length r
  have hlen : (stringifyChars (.obj [("path", .str p), ("ref", .str r)])).length
      = 20 + (escInner p).length + (escInner r).length := by
    simp [stringifyChars, stringifyObj, escString,
      show (escInner "path").length = 4 from rfl, show (escInner "ref").length = 3 from rfl]
    omega
  have hf : (stringifyChars (.obj [("path", .str p), ("ref", .str r)])).length + 1 =
      p.length + r.length +
        (((stringifyChars (.obj [("path", .str p), ("ref", .str r)])).length + 1
          - p.length - r.length - 12) + 12) := by omega
  have hparse := parseValue_obj2 p r []
    ((stringifyChars (.obj [("path", .str p), ("ref", .str r)])).length + 1)
    ((stringifyChars (.obj [("path", .str p), ("ref", .str r)])).length + 1
      - p.length - r.length - 12) hf
  rw [List.append_nil] at hparse
  rw [hparse]
  rfl

/-- The three-field round trip through the whole JSON.parse / JSON.stringify
pipeline (submoduleOf present). -/
theorem json_roundtrip3 (p r m : String) :
    Json.parse (Json.stringify
        (.obj [("path", .str p), ("ref", .str r), ("submoduleOf", .str m)])) =
      .ok (.obj [("path", .str p), ("ref", .str r), ("submoduleOf", .str m)]) := by
  unfold Json.parse Json.stringify
  rw [show (String.mk (stringifyChars
        (.obj [("path", .str p), ("ref", .str r), ("submoduleOf", .str m)]))).data
      = stringifyChars (.obj [("path", .str p), ("ref", .str r), ("submoduleOf", .str m)])
      from rfl]
  have hp := escInner_length p
  have hr := escInner_length r
  have hm := escInner_length m
  have hlen : (stringifyChars
        (.obj [("path", .str p), ("ref", .str r), ("submoduleOf", .str m)])).length
      = 37 + (escInner p).length + (escInner r).length + (escInner m).length := by
    simp [stringifyChars, stringifyObj, escString,
      show (escInner "path").length = 4 from rfl, show (escInner "ref").length = 3 from rfl,
      show (escInner "submoduleOf").length = 11 from rfl]
    omega
  have hf : (stringifyChars
        (.obj [("path", .str p), ("ref", .str r), ("submoduleOf", .str m)])).length + 1 =
      p.length + r.length + m.length +
        (((stringifyChars
            (.obj [("path", .str p), ("ref", .str r), ("submoduleOf", .str m)])).length + 1
          - p.length - r.length - m.length - 17) + 17) := by omega
  have hparse := parseValue_obj3 p r m []
    ((stringifyChars
        (.obj [("path", .str p), ("ref", .str r), ("submoduleOf", .str m)])).length + 1)
    ((stringifyChars
        (.obj [("path", .str p), ("ref", .str r), ("submoduleOf", .str m)])).length + 1
      - p.length - r.length - m.length - 17) hf
  rw [List.append_nil] at hparse
  rw [hparse]
  rfl

/-! ## Codec facts shared by several claims -/

/-- The query toGitUri emits when no submodule option is given. -/
theorem toGitUri_query_noSub (u : Uri) (ref : String) (rfe : Option Bool) :
    (toGitUri u ref { replaceFileExtension := rfe, submoduleOf := none }).query =
      Json.stringify (.obj [("path", .str u.fsPath), ("ref", .str ref)]) := by
  simp [toGitUri, gitUriParams]

/-- Decoding an encoded locator without submodule context recovers path and
ref exactly, with no extra field. -/
theorem fromGitUri_toGitUri_noSub (u : Uri) (ref : String) (rfe : Option Bool) :
    fromGitUri (toGitUri u ref { replaceFileExtension := rfe, submoduleOf := none }) =
      .ok (.obj [("path", .str u.fsPath), ("ref", .str ref)]) := by
  simp only [fromGitUri, toGitUri_query_noSub]
  exact json_roundtrip2 u.fsPath ref

/-- Decoding an encoded locator with a (truthy) submodule option recovers
all three fields exactly. -/
theorem fromGitUri_toGitUri_withSub (u : Uri) (ref s : String) (rfe : Option Bool)
    (hs : s ≠ "") :
    fromGitUri (toGitUri u ref { replaceFileExtension := rfe, submoduleOf := some s }) =
      .ok (.obj [("path", .str u.fsPath), ("ref", .str ref), ("submoduleOf", .str s)]) := by
  have hq : (toGitUri u ref { replaceFileExtension := rfe, submoduleOf := some s }).query =
      Json.stringify (.obj [("path", .str u.fsPath), ("ref", .str ref),
        ("submoduleOf", .str s)]) := by
    simp [toGitUri, gitUriParams, hs]
  simp only [fromGitUri, hq]
  exact json_roundtrip3 u.fsPath ref s

/-! ## The claims -/

/-- Claim C1: round-trip of the codec.  For every source identifier and
revision reference, decoding the result of encoding with
replaceFileExtension falsy and no submoduleOf yields exactly the record
with fields path (the source identifier's real path) and ref, in that
order, with no submoduleOf field present; when a (truthy) submoduleOf is
supplied it is likewise recovered exactly as a third field. -/
theorem claim_roundtrip (u : Uri) (ref : String) (rfe : Option Bool)
    (hrfe : truthyBool rfe = false) :
    fromGitUri (toGitUri u ref { replaceFileExtension := rfe, submoduleOf := none }) =
      .ok (.obj [("path", .str u.fsPath), ("ref", .str ref)])
    ∧ ∀ s : String, s ≠ "" →
      fromGitUri (toGitUri u ref { replaceFileExtension := rfe, submoduleOf := some s }) =
        .ok (.obj [("path", .str u.fsPath), ("ref", .str ref), ("submoduleOf", .str s)]) :=
  ⟨fromGitUri_toGitUri_noSub u ref rfe,
   fun s hs => fromGitUri_toGitUri_withSub u ref s rfe hs⟩

/-- Witness for C1 at a concrete identifier, reference and submodule. -/
theorem claim_roundtrip_witness :
    fromGitUri (toGitUri ⟨"file", "", "/repo/a.txt", "", ""⟩ "abc123"
        ⟨some false, some "/repo"⟩) =
      .ok (.obj [("path", .str "/repo/a.txt"), ("ref", .str "abc123"),
        ("submoduleOf", .str "/repo")]) :=
  (claim_roundtrip ⟨"file", "", "/repo/a.txt", "", ""⟩ "abc123" (some false) rfl).2
    "/repo" (by decide)

/-- Claim C3: the merge triple.  toMergeUris returns exactly three encoded
locators whose decoded refs are the merge-stage markers ":1", ":2", ":3"
for base, ours, theirs in that order, whose decoded path is the source
identifier's path for all three, which carry no submoduleOf field (the
decoded objects have exactly the two fields path and ref), and whose path
component is the source path unchanged (no ".git" or ".diff" suffix). -/
theorem claim_mergeTriple (u : Uri) :
    fromGitUri (toMergeUris u).base = .ok (.obj [("path", .str u.path), ("ref", .str ":1")])
    ∧ fromGitUri (toMergeUris u).ours = .ok (.obj [("path", .str u.path), ("ref", .str ":2")])
    ∧ fromGitUri (toMergeUris u).theirs = .ok (.obj [("path", .str u.path), ("ref", .str ":3")])
    ∧ (toMergeUris u).base.path = u.path
    ∧ (toMergeUris u).ours.path = u.path
    ∧ (toMergeUris u).theirs.path = u.path :=
  ⟨fromGitUri_toGitUri_noSub u ":1" none,
   fromGitUri_toGitUri_noSub u ":2" none,
   fromGitUri_toGitUri_noSub u ":3" none,
   rfl, rfl, rfl⟩

/-- Claim C4: strict decode.  fromGitUri returns whatever JSON.parse returns
on the identifier's query: any parse failure is propagated to the caller
unmodified, and any successfully parsed value is returned as-is with no
shape validation and no coercion — in particular a query holding valid JSON
that is not a path/ref object (null shown concretely) is returned without
error, and a malformed query (a lone brace shown concretely) is an error. -/
theorem claim_strictDecode (u : Uri) :
    (∀ j : Json, Json.parse u.query = .ok j → fromGitUri u = .ok j)
    ∧ (∀ e : String, Json.parse u.query = .error e → fromGitUri u = .error e)
    ∧ fromGitUri ⟨"git", "", "/x", "null", ""⟩ = .ok .null
    ∧ ∃ e, fromGitUri ⟨"git", "", "/x", "\x7b", ""⟩ = .error e :=
  ⟨fun _ h => h, fun _ h => h, rfl, ⟨"Unexpected token in JSON", rfl⟩⟩

/-- Witness for C4, decoding a valid JSON array query (no shape check). -/
theorem claim_strictDecode_witness :
    fromGitUri ⟨"git", "", "/a", "[true]", ""⟩ = .ok (.arr [.bool true]) :=
  (claim_strictDecode ⟨"git", "", "/a", "[true]", ""⟩).1 (.arr [.bool true]) rfl

/-- Claim C7: suffix precedence.  With replaceFileExtension true the output
path is the source path with ".git" appended regardless of submoduleOf;
with replaceFileExtension falsy and a (truthy) submoduleOf, ".diff" is
appended; with neither (truthily) set the path component is unchanged. -/
theorem claim_suffixPrecedence (u : Uri) (ref : String) :
    (∀ o : GitUriOptions, truthyBool o.replaceFileExtension = true →
      (toGitUri u ref o).path = u.path ++ ".git")
    ∧ (∀ (rfe : Option Bool) (s : String), truthyBool rfe = false → s ≠ "" →
      (toGitUri u ref { replaceFileExtension := rfe, submoduleOf := some s }).path =
        u.path ++ ".diff")
    ∧ (∀ (rfe : Option Bool) (so : Option String),
      truthyBool rfe = false → truthyStr so = false →
      (toGitUri u ref { replaceFileExtension := rfe, submoduleOf := so }).path = u.path) := by
  refine ⟨?_, ?_, ?_⟩
  · intro o ho
    simp [toGitUri, ho]
  · intro rfe s hrfe hs
    simp [toGitUri, truthyStr, hrfe, hs]
  · intro rfe so hrfe hso
    simp [toGitUri, hrfe, hso]

/-- Witness for C7: both options set yields ".git", not ".diff". -/
theorem claim_suffixPrecedence_witness :
    (toGitUri ⟨"file", "", "/r/f.txt", "", ""⟩ "HEAD" ⟨some true, some "/r"⟩).path =
      "/r/f.txt.git" :=
  (claim_suffixPrecedence ⟨"file", "", "/r/f.txt", "", ""⟩ "HEAD").1
    ⟨some true, some "/r"⟩ rfl

/-- Claim C8: scheme recognition.  Every identifier produced by toGitUri
satisfies isGitUri, and an identifier with any scheme other than "git"
never does. -/
theorem claim_schemeRecognition :
    (∀ (u : Uri) (ref : String) (o : GitUriOptions), isGitUri (toGitUri u ref o) = true)
    ∧ (∀ v : Uri, v.scheme ≠ "git" → isGitUri v = false) := by
  constructor
  · intro u ref o
    simp [isGitUri, regexExactGit, toGitUri]
  · intro v hv
    simp [isGitUri, regexExactGit, hv]

/-- Witness for C8 at a concrete encoded identifier and a concrete foreign
scheme. -/
theorem claim_schemeRecognition_witness :
    isGitUri (toGitUri ⟨"file", "", "/a", "", ""⟩ "r" ⟨none, none⟩) = true
    ∧ isGitUri ⟨"https", "", "/a", "", ""⟩ = false :=
  ⟨claim_schemeRecognition.1 ⟨"file", "", "/a", "", ""⟩ "r" ⟨none, none⟩,
   claim_schemeRecognition.2 ⟨"https", "", "/a", "", ""⟩ (by decide)⟩

/-- Claim C10: frame of the encoder.  toGitUri preserves the source
identifier's authority and fragment components unchanged and replaces only
the scheme (with "git"), the path (suffix rule) and the query (serialized
params). -/
theorem claim_encoderFrame (u : Uri) (ref : String) (o : GitUriOptions) :
    (toGitUri u ref o).authority = u.authority
    ∧ (toGitUri u ref o).fragment = u.fragment
    ∧ (toGitUri u ref o).scheme = "git"
    ∧ (toGitUri u ref o).query = Json.stringify (.obj (gitUriParams u ref o))
    ∧ (toGitUri u ref o).path =
        (if truthyBool o.replaceFileExtension then u.path ++ ".git"
         else if truthyStr o.submoduleOf then u.path ++ ".diff"
         else u.path) :=
  ⟨rfl, rfl, rfl, rfl, rfl⟩

/-- Claim C6: best-effort path resolution.  resolvePath performs exactly one
filesystem lookup (the trace is the singleton of the requested path), never
raises (it is a total function), returns the resolved path when the lookup
succeeds and returns the input unchanged when the lookup fails. -/
theorem claim_resolvePath (fs : FileSystem) (path : String) :
    (resolvePath fs path).2 = [path]
    ∧ (∀ resolved, fs.realpath path = some resolved → (resolvePath fs path).1 = resolved)
    ∧ (fs.realpath path = none → (resolvePath fs path).1 = path) := by
  refine ⟨?_, ?_, ?_⟩
  · cases h : fs.realpath path <;> simp [resolvePath, FileSystem.realpathSync, h]
  · intro resolved h
    simp [resolvePath, FileSystem.realpathSync, h]
  · intro h
    simp [resolvePath, FileSystem.realpathSync, h]

/-- Witness for C6: a succeeding and a failing lookup. -/
theorem claim_resolvePath_witness :
    (resolvePath ⟨fun p => if p = "/sym" then some "/real" else none⟩ "/sym").1 = "/real"
    ∧ (resolvePath ⟨fun _ => none⟩ "/gone").1 = "/gone" :=
  ⟨(claim_resolvePath ⟨fun p => if p = "/sym" then some "/real" else none⟩ "/sym").2.1
      "/real" (by decide),
   (claim_resolvePath ⟨fun _ => none⟩ "/gone").2.2 rfl⟩

/-- Claim C5: decoder with resolution fallback.  Whenever the identifier's
query parses as valid JSON, fromGitUriAndResolve returns ok (never throws);
when the parsed value is an object whose path field is a string that the
filesystem resolves, that field is replaced in place by the resolved path;
whenever the try-block fails for any reason (non-object value, missing or
non-string path field, failing realpath call), the parsed value is returned
unchanged. -/
theorem claim_decodeAndResolve (fs : FileSystem) (u : Uri) (j : Json)
    (hok : Json.parse u.query = .ok j) :
    (∃ j2, fromGitUriAndResolve fs u = .ok j2)
    ∧ (∀ fields p resolved, j = .obj fields →
        fields.lookup "path" = some (.str p) →
        fs.realpath p = some resolved →
        fromGitUriAndResolve fs u =
          .ok (.obj (fields.map fun kv =>
            if kv.1 = "path" then (kv.1, .str resolved) else kv)))
    ∧ (tryResolveParsed fs j = none → fromGitUriAndResolve fs u = .ok j) := by
  refine ⟨?_, ?_, ?_⟩
  · cases h : tryResolveParsed fs j <;>
      simp [fromGitUriAndResolve, hok, h]
  · intro fields p resolved hj hlook hres
    subst hj
    simp [fromGitUriAndResolve, hok, tryResolveParsed, hlook, hres,
      FileSystem.realpathSync]
  · intro hnone
    simp [fromGitUriAndResolve, hok, hnone]

/-- Witness for C5: a resolvable locator has its path field replaced. -/
theorem claim_decodeAndResolve_witness :
    fromGitUriAndResolve ⟨fun p => if p = "/sym" then some "/real" else none⟩
        ⟨"git", "", "/x", Json.stringify (.obj [("path", .str "/sym"), ("ref", .str "HEAD")]), ""⟩ =
      .ok (.obj [("path", .str "/real"), ("ref", .str "HEAD")]) := by
  have h := (claim_decodeAndResolve ⟨fun p => if p = "/sym" then some "/real" else none⟩
      ⟨"git", "", "/x", Json.stringify (.obj [("path", .str "/sym"), ("ref", .str "HEAD")]), ""⟩
      (.obj [("path", .str "/sym"), ("ref", .str "HEAD")])
      (json_roundtrip2 "/sym" "HEAD")).2.1
      [("path", .str "/sym"), ("ref", .str "HEAD")] "/sym" "/real" rfl rfl (by decide)
  simpa using h

/-- Claim C9: batch shape and order preservation.  resolveWorkspaceFolders
yields the empty sequence on undefined or empty input; on any input both
batch resolvers return a sequence of the same length whose i-th element is
the i-th input element with only the embedded identifier's path replaced
via resolvePath (resolveUri for editors), every other field copied
unchanged. -/
theorem claim_batchResolve (fs : FileSystem) :
    resolveWorkspaceFolders fs none = []
    ∧ resolveWorkspaceFolders fs (some []) = []
    ∧ (∀ folders : List WorkspaceFolder,
        (resolveWorkspaceFolders fs (some folders)).length = folders.length
        ∧ ∀ i : Nat, (resolveWorkspaceFolders fs (some folders)).get? i =
            (folders.get? i).map fun folder =>
              { folder with
                uri := { folder.uri with path := (resolvePath fs folder.uri.path).1 } })
    ∧ (∀ editors : List TextEditor,
        (resolveWindowVisibleTextEditors fs editors).length = editors.length
        ∧ ∀ i : Nat, (resolveWindowVisibleTextEditors fs editors).get? i =
            (editors.get? i).map fun editor =>
              { editor with
                document := { editor.document with
                  uri := resolveUri fs editor.document.uri } }) := by
  refine ⟨rfl, rfl, ?_, ?_⟩
  · intro folders
    exact ⟨by simp [resolveWorkspaceFolders],
      fun i => by simp [resolveWorkspaceFolders, List.get?_map]⟩
  · intro editors
    exact ⟨by simp [resolveWindowVisibleTextEditors],
      fun i => by simp [resolveWindowVisibleTextEditors, List.get?_map]⟩

/-- Counterexample to claim C2 as stated: the path "digit" does not end in
the literal ".git", yet resolveUriWithGitScheme does not return resolvePath
of the whole path — the unescaped dot of the /.git$/ pattern matches the i
of "digit", so the code strips four characters and appends ".git", giving
"d.git" where the claim predicts "digit" (the filesystem here fails every
lookup, so resolvePath is the identity). -/
theorem claim_suffixResolution_counterexample :
    (".git" : String).data.isSuffixOf ("digit" : String).data = false
    ∧ (resolveUriWithGitScheme ⟨fun _ => none⟩ ⟨"file", "", "digit", "", ""⟩).path = "d.git"
    ∧ (resolvePath ⟨fun _ => none⟩ "digit").1 = "digit"
    ∧ ("d.git" : String) ≠ "digit" := by
  refine ⟨by decide, by decide, by decide, by decide⟩

/-- Claim C2 as amended: the suffix detection is the regular expression
/.git$/ whose unescaped dot matches any non-line-terminator character, so
it triggers exactly when the path's last four characters are such a
character followed by "git" — in particular on every path ending in the
literal ".git".  When it triggers (and the query is empty or valid JSON,
so that the catch path is not taken) the result path is resolvePath of the
path with its last four characters removed, with ".git" re-appended; when
it does not trigger the result path is resolvePath of the unmodified path.
When the query is nonempty and not valid JSON, the original identifier is
returned unchanged. -/
theorem claim_suffixResolution_amended (fs : FileSystem) (u : Uri)
    (hq : u.query = "" ∨ ∃ j, Json.parse u.query = .ok j) :
    (regexDotGitTest u.path = true →
      (resolveUriWithGitScheme fs u).path =
        (resolvePath fs (String.mk (u.path.data.take (u.path.data.length - 4)))).1 ++ ".git")
    ∧ (regexDotGitTest u.path = false →
      (resolveUriWithGitScheme fs u).path = (resolvePath fs u.path).1) := by
  by_cases hqe : u.query = ""
  · constructor <;> intro h <;>
      simp [resolveUriWithGitScheme, hqe, h, jsReplaceDotGit]
  · rcases hq with hq | ⟨j, hj⟩
    · exact absurd hq hqe
    · have hFG : ∃ j2, fromGitUriAndResolve fs u = Except.ok j2 := by
        cases h2 : tryResolveParsed fs j <;>
          simp [fromGitUriAndResolve, hj, h2]
      obtain ⟨j2, hj2⟩ := hFG
      constructor <;> intro h <;>
        simp [resolveUriWithGitScheme, hqe, hj2, h, jsReplaceDotGit]

/-- Witness for the amended C2: a path ending in the literal ".git" is
resolved with the suffix stripped and re-appended. -/
theorem claim_suffixResolution_amended_witness :
    (resolveUriWithGitScheme ⟨fun p => if p = "/r/a" then some "/x/a" else none⟩
        ⟨"file", "", "/r/a.git", "", ""⟩).path = "/x/a.git" := by
  have h := (claim_suffixResolution_amended
      ⟨fun p => if p = "/r/a" then some "/x/a" else none⟩
      ⟨"file", "", "/r/a.git", "", ""⟩ (Or.inl rfl)).1 (by decide)
  rw [h]
  decide
